import Mathlib

/-!
# GoodBite order store — shallow embedding

Shallow embedding of the per-user order-tracking store of the GoodBite
repository (`src/services/OrderService.ts`) together with the `Order`
entity it manipulates. The service is a class with mutable fields
`orders`, `currentUserPhone` and access to `localStorage`; we model a
method as a function from the service state (including the storage) to
the new state, paired with the method's return value. `localStorage` is
modelled as an association list from keys to stored values; a stored
value is either a well-formed JSON array of order snapshots or malformed
text (whose `JSON.parse` throws, caught by the service). `console.error`
calls are modelled by appending the message to a `log` field.

The `Order` entity (`src/models/Order.ts`) is not part of the sources;
its definitions below are modelled from the specification and marked as
such in their doc comments.
-/

namespace GoodBite

/-- Order status: one of "pending" | "picked" | "expired". -/
inductive OrderStatus : Type
  | pending
  | picked
  | expired
deriving DecidableEq, Repr

/-- Modelled from the spec: the `Order` entity (`src/models/Order.ts` is
absent from the sources). Fields: immutable `id` (string), `status`
(initially pending), immutable non-negative `price` (a JS number,
modelled exactly as a rational), and the remaining order-specific fields
carried through opaquely, modelled as a single `payload` string. -/
structure Order : Type where
  id : String
  status : OrderStatus
  price : ℚ
  payload : String
deriving DecidableEq, Repr

/-- Modelled from the spec: `OrderData`, the caller-supplied payload for
creation — the fields an `Order` is built from, taken as given. -/
structure OrderData : Type where
  id : String
  price : ℚ
  payload : String
deriving DecidableEq, Repr

/-- Modelled from the spec: `construct(data)` builds a new Order from
caller-supplied fields and assigns status `pending`; price and id are
taken as given, with no validation. -/
def Order.construct (d : OrderData) : Order :=
  { id := d.id, status := OrderStatus.pending, price := d.price, payload := d.payload }

/-- Modelled from the spec: `isPending()` — pure predicate on the current status. -/
def Order.isPending (o : Order) : Bool :=
  o.status == OrderStatus.pending

/-- Modelled from the spec: `isPicked()` — pure predicate on the current status. -/
def Order.isPicked (o : Order) : Bool :=
  o.status == OrderStatus.picked

/-- Modelled from the spec: `markAsPicked()` sets status to `picked` only
if the current status is `pending`, otherwise a no-op. -/
def Order.markAsPicked (o : Order) : Order :=
  if o.status = OrderStatus.pending then { o with status := OrderStatus.picked } else o

/-- Modelled from the spec: `markAsExpired()` sets status to `expired` only
if the current status is `pending`, otherwise a no-op. -/
def Order.markAsExpired (o : Order) : Order :=
  if o.status = OrderStatus.pending then { o with status := OrderStatus.expired } else o

/-- The status strings appearing in the serialized form. -/
def statusToString : OrderStatus → String
  | OrderStatus.pending => "pending"
  | OrderStatus.picked => "picked"
  | OrderStatus.expired => "expired"

/-- Parsing a status string back; unrecognised strings fall back to `pending`. -/
def statusOfString (s : String) : OrderStatus :=
  if s = "picked" then OrderStatus.picked
  else if s = "expired" then OrderStatus.expired
  else OrderStatus.pending

/-- The plain structured representation of an order (`OrderJSON`): id,
status (as its string), price, plus the payload fields. -/
structure OrderJSON : Type where
  id : String
  status : String
  price : ℚ
  payload : String
deriving DecidableEq, Repr

/-- Modelled from the spec: `serialize()` (`toJSON`) — round-trip to a plain
structured representation. -/
def Order.toJSON (o : Order) : OrderJSON :=
  { id := o.id, status := statusToString o.status, price := o.price, payload := o.payload }

/-- Modelled from the spec: `deserialize(json)` (`fromJSON`) — reconstructs
an Order from the plain structured representation. -/
def Order.fromJSON (j : OrderJSON) : Order :=
  { id := j.id, status := statusOfString j.status, price := j.price, payload := j.payload }

/-- A value held in a `localStorage` slot: either a well-formed encoding of
an array of order snapshots, or malformed text on which `JSON.parse` throws. -/
inductive StoredVal : Type
  | good (l : List OrderJSON)
  | malformed
deriving DecidableEq, Repr

/-- `localStorage`, modelled as an association list from keys to stored values. -/
abbrev Storage : Type := List (String × StoredVal)

/-- `localStorage.getItem`: the first binding of the key, if any. -/
def storageGet (st : Storage) (k : String) : Option StoredVal :=
  match st with
  | [] => none
  | (k2, v) :: rest => if k2 = k then some v else storageGet rest k

/-- `localStorage.setItem`: bind the key, shadowing any earlier binding. -/
def storageSet (st : Storage) (k : String) (v : StoredVal) : Storage :=
  (k, v) :: st

/-- `localStorage.removeItem`: drop every binding of the key. -/
def storageRemove (st : Storage) (k : String) : Storage :=
  match st with
  | [] => []
  | (k2, v) :: rest => if k2 = k then storageRemove rest k else (k2, v) :: storageRemove rest k

/-- The mutable state of the `OrderService` singleton: its `orders` and
`currentUserPhone` fields, the `localStorage` contents, and the log of
`console.error` messages. -/
structure ServiceState : Type where
  orders : List Order
  currentUserPhone : String
  storage : Storage
  log : List String
deriving DecidableEq, Repr

/-- `STORAGE_KEY_PREFIX`, the fixed namespace part of every orders key
(named `STORAGE_KEY_BASE` here because of a lexical restriction). -/
def STORAGE_KEY_BASE : String := "goodbite_orders_"

/-- `getStorageKey()`: the fixed namespace part concatenated with the
current user's phone. -/
def getStorageKey (s : ServiceState) : String :=
  STORAGE_KEY_BASE ++ s.currentUserPhone

/-- The storage key derived for a given user key. -/
def keyOf (phone : String) : String :=
  STORAGE_KEY_BASE ++ phone

/-- `loadOrders()`: load the current user's orders from storage. No user →
empty; missing key → empty; malformed value (`JSON.parse` throws, caught) →
empty and a `console.error`; otherwise deserialize every snapshot. -/
def loadOrders (s : ServiceState) : ServiceState :=
  if s.currentUserPhone = "" then { s with orders := [] }
  else
    match storageGet s.storage (getStorageKey s) with
    | some (StoredVal.good l) => { s with orders := l.map Order.fromJSON }
    | some StoredVal.malformed =>
        { s with orders := [], log := s.log ++ ["Error loading orders"] }
    | none => { s with orders := [] }

/-- `saveOrders()`: persist the in-memory orders under the current user's
key; with no user logged in, a `console.error` and the persist is skipped. -/
def saveOrders (s : ServiceState) : ServiceState :=
  if s.currentUserPhone = "" then
    { s with log := s.log ++ ["No user logged in, cannot save orders"] }
  else
    { s with
      storage :=
        storageSet s.storage (getStorageKey s) (StoredVal.good (s.orders.map Order.toJSON)) }

/-- `switchUser(userPhone)` (the spec's `bindUser`): set the current user
and load that user's orders. -/
def switchUser (userPhone : String) (s : ServiceState) : ServiceState :=
  loadOrders { s with currentUserPhone := userPhone }

/-- `clearUserSession()`: unbind the user and empty the in-memory collection. -/
def clearUserSession (s : ServiceState) : ServiceState :=
  { s with currentUserPhone := "", orders := [] }

/-- `createOrder(orderData)` (the spec's `create`): construct the Order,
append it, persist, and return it. -/
def createOrder (d : OrderData) (s : ServiceState) : Order × ServiceState :=
  let newOrder := Order.construct d
  (newOrder, saveOrders { s with orders := s.orders ++ [newOrder] })

/-- `getOrderById(id)` (the spec's `findById`): first order with that id,
or the not-found marker (`undefined`, modelled as `none`). -/
def getOrderById (id : String) (s : ServiceState) : Option Order :=
  s.orders.find? (fun o => o.id == id)

/-- `getAllOrders()` (the spec's `listAll`): the full ordered collection
(at the value level; the aliasing behaviour of `[...this.orders]` is
modelled separately by the reference-semantics model below). -/
def getAllOrders (s : ServiceState) : List Order :=
  s.orders

/-- `refreshOrders()` (the spec's `reload`): re-read the current user's
persisted collection. -/
def refreshOrders (s : ServiceState) : ServiceState :=
  loadOrders s

/-- `getOrdersByStatus(status)` (the spec's `listByStatus`). -/
def getOrdersByStatus (st : OrderStatus) (s : ServiceState) : List Order :=
  s.orders.filter (fun o => o.status == st)

/-- `getPendingOrders()`. -/
def getPendingOrders (s : ServiceState) : List Order :=
  s.orders.filter (fun o => o.isPending)

/-- `getPickedOrders()`. -/
def getPickedOrders (s : ServiceState) : List Order :=
  s.orders.filter (fun o => o.isPicked)

/-- Apply `f` to the first order whose id matches, leaving the rest in
place: the effect of mutating the object returned by `find` inside the
service's array. -/
def updateFirstWithId (id : String) (f : Order → Order) : List Order → List Order
  | [] => []
  | o :: rest => if o.id == id then f o :: rest else o :: updateFirstWithId id f rest

/-- `markOrderAsPicked(orderId)` (the spec's `markPicked`): look the order
up; if found and pending, transition it, persist, and return true;
otherwise return false with no change. -/
def markOrderAsPicked (orderId : String) (s : ServiceState) : Bool × ServiceState :=
  match getOrderById orderId s with
  | some o =>
      if o.isPending then
        (true, saveOrders { s with orders := updateFirstWithId orderId Order.markAsPicked s.orders })
      else (false, s)
  | none => (false, s)

/-- `markOrderAsExpired(orderId)` (the spec's `markExpired`): symmetric to
`markOrderAsPicked`. -/
def markOrderAsExpired (orderId : String) (s : ServiceState) : Bool × ServiceState :=
  match getOrderById orderId s with
  | some o =>
      if o.isPending then
        (true, saveOrders { s with orders := updateFirstWithId orderId Order.markAsExpired s.orders })
      else (false, s)
  | none => (false, s)

/-- Remove the first order whose id matches (`splice` at `findIndex`). -/
def removeFirstWithId (id : String) : List Order → List Order
  | [] => []
  | o :: rest => if o.id == id then rest else o :: removeFirstWithId id rest

/-- `deleteOrder(orderId)` (the spec's `delete`): if some order has the id,
remove the first such (the `findIndex`/`splice` pair), persist, and return
true; otherwise return false. -/
def deleteOrder (orderId : String) (s : ServiceState) : Bool × ServiceState :=
  if s.orders.any (fun o => o.id == orderId) then
    (true, saveOrders { s with orders := removeFirstWithId orderId s.orders })
  else (false, s)

/-- `getTotalOrdersCount()` (the spec's `count`). -/
def getTotalOrdersCount (s : ServiceState) : Nat :=
  s.orders.length

/-- `getTotalRevenue()` (the spec's `totalRevenue`): `reduce` of `price` over
the orders, starting from 0. -/
def getTotalRevenue (s : ServiceState) : ℚ :=
  s.orders.foldl (fun total o => total + o.price) 0

/-- `orderExists(orderId)` (the spec's `exists`). -/
def orderExists (orderId : String) (s : ServiceState) : Bool :=
  s.orders.any (fun o => o.id == orderId)

/-- `clearAllOrders()` (the spec's `clearAll`): empty the collection and,
when a user is bound, delete that user's persisted entry. -/
def clearAllOrders (s : ServiceState) : ServiceState :=
  if s.currentUserPhone = "" then { s with orders := [] }
  else { s with orders := [], storage := storageRemove s.storage (getStorageKey s) }

/-- A mutating service call made without rebinding the session, for
quantifying over "any sequence of mutations". -/
inductive Op : Type
  | create (d : OrderData)
  | markPicked (id : String)
  | markExpired (id : String)
  | del (id : String)
  | clearAll
  | refresh
deriving DecidableEq, Repr

/-- Run one service call, discarding its return value. -/
def applyOp : Op → ServiceState → ServiceState
  | Op.create d, s => (createOrder d s).2
  | Op.markPicked id, s => (markOrderAsPicked id s).2
  | Op.markExpired id, s => (markOrderAsExpired id s).2
  | Op.del id, s => (deleteOrder id s).2
  | Op.clearAll, s => clearAllOrders s
  | Op.refresh, s => refreshOrders s

/-- Run a sequence of service calls, left to right. -/
def applyOps (ops : List Op) (s : ServiceState) : ServiceState :=
  ops.foldl (fun t op => applyOp op t) s

/-- The collection `loadOrders` produces for a user, as a function of the
stored value found under that user's key. -/
def loadedOrders (phone : String) (v : Option StoredVal) : List Order :=
  if phone = "" then []
  else
    match v with
    | some (StoredVal.good l) => l.map Order.fromJSON
    | some StoredVal.malformed => []
    | none => []

/-- The collection carries no two orders with the same id. -/
def NodupIds (l : List Order) : Prop :=
  (l.map (fun o => o.id)).Nodup

instance (l : List Order) : Decidable (NodupIds l) := by
  unfold NodupIds
  infer_instance

/-!
## Reference-semantics model of `getAllOrders`

`getAllOrders` returns `[...this.orders]`: a fresh array holding the same
`Order` object references as the service's own array. Whether a caller's
mutation of the result can reach the service's data is a question about
JavaScript's heap, so we model that one method over an explicit heap:
order objects and arrays of references live in addressed cells, and the
service's `orders` field is a reference to an array cell. -/

/-- Heap view of the service's collection: `orderHeap` holds the `Order`
objects, `arrayHeap` the arrays of order references, and `ordersRef` is
the service's `this.orders` reference. -/
structure JSState : Type where
  orderHeap : List Order
  arrayHeap : List (List Nat)
  ordersRef : Nat
deriving DecidableEq, Repr

/-- Read an array cell. -/
def readArray (s : JSState) (r : Nat) : List Nat :=
  s.arrayHeap.getD r []

/-- Read an order cell. -/
def readOrder (s : JSState) (a : Nat) : Order :=
  s.orderHeap.getD a (Order.construct { id := "", price := 0, payload := "" })

/-- A caller mutating an `Order` object in place (e.g. calling
`markAsPicked()` directly on it): overwrite that heap cell. -/
def writeOrder (s : JSState) (a : Nat) (o : Order) : JSState :=
  { s with orderHeap := s.orderHeap.set a o }

/-- A caller mutating an array in place (push, splice, sort, ...):
overwrite that array cell. -/
def writeArray (s : JSState) (r : Nat) (l : List Nat) : JSState :=
  { s with arrayHeap := s.arrayHeap.set r l }

/-- The store's observable in-memory collection: its array, dereferenced. -/
def storeView (s : JSState) : List Order :=
  (readArray s s.ordersRef).map (readOrder s)

/-- `getAllOrders()` under reference semantics: `[...this.orders]`
allocates a fresh array cell containing the same order references and
returns the new reference. -/
def getAllOrdersJS (s : JSState) : Nat × JSState :=
  (s.arrayHeap.length, { s with arrayHeap := s.arrayHeap ++ [readArray s s.ordersRef] })

/-- A concrete pending order, used to instantiate theorems with hypotheses. -/
def exPending : Order :=
  { id := "a", status := OrderStatus.pending, price := 5, payload := "x" }

/-- A concrete bound-session service state holding one pending order, used
to instantiate theorems with hypotheses. -/
def exState : ServiceState :=
  { orders := [exPending], currentUserPhone := "u", storage := [], log := [] }

/-!
## Basic lemmas about the service methods
-/

theorem saveOrders_orders (s : ServiceState) : (saveOrders s).orders = s.orders := by
  unfold saveOrders
  split <;> rfl

theorem saveOrders_phone (s : ServiceState) :
    (saveOrders s).currentUserPhone = s.currentUserPhone := by
  unfold saveOrders
  split <;> rfl

theorem loadOrders_phone (s : ServiceState) :
    (loadOrders s).currentUserPhone = s.currentUserPhone := by
  unfold loadOrders
  split
  · rfl
  · split <;> rfl

theorem loadOrders_storage (s : ServiceState) : (loadOrders s).storage = s.storage := by
  unfold loadOrders
  split
  · rfl
  · split <;> rfl

theorem switchUser_phone (p : String) (s : ServiceState) :
    (switchUser p s).currentUserPhone = p := by
  unfold switchUser
  rw [loadOrders_phone]

theorem switchUser_storage (p : String) (s : ServiceState) :
    (switchUser p s).storage = s.storage := by
  unfold switchUser
  rw [loadOrders_storage]

theorem loadOrders_orders (s : ServiceState) :
    (loadOrders s).orders
      = loadedOrders s.currentUserPhone (storageGet s.storage (getStorageKey s)) := by
  unfold loadOrders loadedOrders
  split
  · rfl
  · split <;> rfl

theorem switchUser_orders (p : String) (s : ServiceState) :
    (switchUser p s).orders = loadedOrders p (storageGet s.storage (keyOf p)) := by
  unfold switchUser
  rw [loadOrders_orders]
  rfl

theorem saveOrders_storage_noUser (s : ServiceState) (h : s.currentUserPhone = "") :
    (saveOrders s).storage = s.storage := by
  unfold saveOrders
  rw [if_pos h]

/-- Sum of prices, as the `reduce` in the source computes it. -/
theorem foldl_add_price (l : List Order) (a : ℚ) :
    l.foldl (fun total o => total + o.price) a = a + (l.map (fun o => o.price)).sum := by
  induction l generalizing a with
  | nil => simp
  | cons o rest ih =>
    simp only [List.foldl_cons, List.map_cons, List.sum_cons, ih]
    ring

/-- C7: in every reachable store state — in fact in every state, hence after
any sequence of create/delete (or other) operations — `getTotalRevenue`
equals the sum of `price` over the collection `getAllOrders` returns, and
equals 0 when that collection is empty. -/
theorem totalRevenue_eq_sum_over_listAll (s : ServiceState) (ops : List Op) :
    getTotalRevenue (applyOps ops s)
        = ((getAllOrders (applyOps ops s)).map (fun o => o.price)).sum ∧
    (getAllOrders (applyOps ops s) = [] → getTotalRevenue (applyOps ops s) = 0) ∧
    getTotalRevenue s = ((getAllOrders s).map (fun o => o.price)).sum := by
  refine ⟨?_, ?_, ?_⟩
  · rw [getTotalRevenue, getAllOrders, foldl_add_price]
    ring
  · intro h
    rw [getTotalRevenue, getAllOrders] at *
    rw [h]
    rfl
  · rw [getTotalRevenue, getAllOrders, foldl_add_price]
    ring

/-- C8: deserializing the serialization of any Order reconstructs it exactly:
identical id, status, price, and payload. -/
theorem fromJSON_toJSON (o : Order) : Order.fromJSON (Order.toJSON o) = o := by
  cases o with
  | mk id st price payload => cases st <;> rfl

/-- C10: the dedicated pending/picked queries return exactly the same
sequences as the generic by-status query at the corresponding status. -/
theorem byStatus_refines_dedicated (s : ServiceState) :
    getPendingOrders s = getOrdersByStatus OrderStatus.pending s ∧
    getPickedOrders s = getOrdersByStatus OrderStatus.picked s :=
  ⟨rfl, rfl⟩

/-- C5: with no user session bound, every mutating call leaves the storage
untouched (the persist step is skipped, with no exception — all the
functions here are total), and `createOrder` still appends the new order to
the in-memory collection and returns it. -/
theorem noSession_skips_persist (s : ServiceState) (d : OrderData) (op : Op)
    (h : s.currentUserPhone = "") :
    (applyOp op s).storage = s.storage ∧
    (createOrder d s).1 = Order.construct d ∧
    (createOrder d s).2.orders = s.orders ++ [Order.construct d] ∧
    (createOrder d s).2.storage = s.storage := by
  have hsave : ∀ l : List Order, (saveOrders { s with orders := l }).storage = s.storage := by
    intro l
    exact saveOrders_storage_noUser { s with orders := l } h
  refine ⟨?_, rfl, ?_, ?_⟩
  · cases op with
    | create d2 => exact hsave _
    | markPicked id =>
      rw [applyOp, markOrderAsPicked]
      cases getOrderById id s with
      | none => rfl
      | some o =>
        by_cases hp : o.isPending
        · simp only [hp, if_pos]
          exact hsave _
        · simp only [hp, if_neg]
          rfl
    | markExpired id =>
      rw [applyOp, markOrderAsExpired]
      cases getOrderById id s with
      | none => rfl
      | some o =>
        by_cases hp : o.isPending
        · simp only [hp, if_pos]
          exact hsave _
        · simp only [hp, if_neg]
          rfl
    | del id =>
      rw [applyOp, deleteOrder]
      by_cases hex : s.orders.any (fun o => o.id == id)
      · simp only [hex, if_pos]
        exact hsave _
      · simp only [hex, if_neg]
        rfl
    | clearAll =>
      rw [applyOp, clearAllOrders, if_pos h]
    | refresh =>
      rw [applyOp, refreshOrders, loadOrders_storage]
  · rw [createOrder, saveOrders_orders]
  · exact hsave _

/-- Witness for C5 at a concrete no-session state. -/
theorem noSession_skips_persist_witness :
    (applyOp (Op.markPicked "a")
        { orders := [], currentUserPhone := "", storage := [], log := [] }).storage = [] ∧
    (createOrder { id := "a", price := 5, payload := "x" }
        { orders := [], currentUserPhone := "", storage := [], log := [] }).1
      = Order.construct { id := "a", price := 5, payload := "x" } ∧
    (createOrder { id := "a", price := 5, payload := "x" }
        { orders := [], currentUserPhone := "", storage := [], log := [] }).2.orders
      = [] ++ [Order.construct { id := "a", price := 5, payload := "x" }] ∧
    (createOrder { id := "a", price := 5, payload := "x" }
        { orders := [], currentUserPhone := "", storage := [], log := [] }).2.storage = [] :=
  noSession_skips_persist
    { orders := [], currentUserPhone := "", storage := [], log := [] }
    { id := "a", price := 5, payload := "x" } (Op.markPicked "a") rfl

/-!
## Storage lemmas and session isolation (C1)
-/

theorem storageGet_set_ne (st : Storage) (k k2 : String) (v : StoredVal) (h : k2 ≠ k) :
    storageGet (storageSet st k v) k2 = storageGet st k2 := by
  rw [storageSet, storageGet, if_neg (fun he => h he.symm)]

theorem storageGet_remove_ne (st : Storage) (kRem k : String) (h : k ≠ kRem) :
    storageGet (storageRemove st kRem) k = storageGet st k := by
  induction st with
  | nil => rfl
  | cons p rest ih =>
    obtain ⟨k2, v⟩ := p
    rw [storageRemove]
    by_cases hp : k2 = kRem
    · rw [if_pos hp, ih, storageGet, if_neg (fun he : k2 = k => h (he ▸ hp))]
    · rw [if_neg hp, storageGet, storageGet]
      by_cases hq : k2 = k
      · rw [if_pos hq, if_pos hq]
      · rw [if_neg hq, if_neg hq, ih]

theorem keyOf_injective (a b : String) (h : keyOf a = keyOf b) : a = b := by
  have h2 : (STORAGE_KEY_BASE ++ a).data = (STORAGE_KEY_BASE ++ b).data := by
    rw [show STORAGE_KEY_BASE ++ a = keyOf a from rfl,
      show STORAGE_KEY_BASE ++ b = keyOf b from rfl, h]
  simp only [String.data_append] at h2
  exact String.ext (List.append_cancel_left h2)

theorem saveOrders_storageGet_ne (s : ServiceState) (k : String)
    (h : k ≠ keyOf s.currentUserPhone) :
    storageGet (saveOrders s).storage k = storageGet s.storage k := by
  unfold saveOrders
  split
  · rfl
  · exact storageGet_set_ne _ _ _ _ h

theorem applyOp_phone (op : Op) (s : ServiceState) :
    (applyOp op s).currentUserPhone = s.currentUserPhone := by
  cases op with
  | create d => rw [applyOp, createOrder, saveOrders_phone]
  | markPicked id =>
    rw [applyOp, markOrderAsPicked]
    cases getOrderById id s with
    | none => rfl
    | some o =>
      by_cases hp : o.isPending
      · simp only [hp, if_pos]
        rw [saveOrders_phone]
      · simp only [hp, if_neg]
        rfl
  | markExpired id =>
    rw [applyOp, markOrderAsExpired]
    cases getOrderById id s with
    | none => rfl
    | some o =>
      by_cases hp : o.isPending
      · simp only [hp, if_pos]
        rw [saveOrders_phone]
      · simp only [hp, if_neg]
        rfl
  | del id =>
    rw [applyOp, deleteOrder]
    by_cases hex : s.orders.any (fun o => o.id == id)
    · simp only [hex, if_pos]
      rw [saveOrders_phone]
    · simp only [hex, if_neg]
      rfl
  | clearAll =>
    rw [applyOp, clearAllOrders]
    split <;> rfl
  | refresh => rw [applyOp, refreshOrders, loadOrders_phone]

theorem applyOp_storageGet_ne (op : Op) (s : ServiceState) (k : String)
    (h : k ≠ keyOf s.currentUserPhone) :
    storageGet (applyOp op s).storage k = storageGet s.storage k := by
  cases op with
  | create d => exact saveOrders_storageGet_ne _ _ h
  | markPicked id =>
    rw [applyOp, markOrderAsPicked]
    cases getOrderById id s with
    | none => rfl
    | some o =>
      by_cases hp : o.isPending
      · simp only [hp, if_pos]
        exact saveOrders_storageGet_ne _ _ h
      · simp only [hp, if_neg]
        rfl
  | markExpired id =>
    rw [applyOp, markOrderAsExpired]
    cases getOrderById id s with
    | none => rfl
    | some o =>
      by_cases hp : o.isPending
      · simp only [hp, if_pos]
        exact saveOrders_storageGet_ne _ _ h
      · simp only [hp, if_neg]
        rfl
  | del id =>
    rw [applyOp, deleteOrder]
    by_cases hex : s.orders.any (fun o => o.id == id)
    · simp only [hex, if_pos]
      exact saveOrders_storageGet_ne _ _ h
    · simp only [hex, if_neg]
      rfl
  | clearAll =>
    rw [applyOp, clearAllOrders]
    split
    · rfl
    · exact storageGet_remove_ne _ _ _ h
  | refresh => rw [applyOp, refreshOrders, loadOrders_storage]

theorem applyOps_phone (ops : List Op) (s : ServiceState) :
    (applyOps ops s).currentUserPhone = s.currentUserPhone := by
  induction ops generalizing s with
  | nil => rfl
  | cons op rest ih =>
    rw [applyOps, List.foldl_cons]
    rw [show (rest.foldl (fun t op2 => applyOp op2 t) (applyOp op s)) = applyOps rest (applyOp op s) from rfl]
    rw [ih, applyOp_phone]

theorem applyOps_storageGet_ne (ops : List Op) (s : ServiceState) (k : String)
    (h : k ≠ keyOf s.currentUserPhone) :
    storageGet (applyOps ops s).storage k = storageGet s.storage k := by
  induction ops generalizing s with
  | nil => rfl
  | cons op rest ih =>
    rw [applyOps, List.foldl_cons]
    rw [show (rest.foldl (fun t op2 => applyOp op2 t) (applyOp op s)) = applyOps rest (applyOp op s) from rfl]
    rw [ih (applyOp op s) ((applyOp_phone op s).symm ▸ h), applyOp_storageGet_ne op s k h]

/-- C1: session isolation. Distinct user keys derive distinct storage keys
(the fixed namespace part concatenated with the user key is injective), and
after binding user A then user B, the collection seen under A — what
rebinding A loads, hence what `getAllOrders` then returns — is unaffected by
any sequence of mutating calls performed while B is bound. -/
theorem session_isolation (A B : String) (s : ServiceState) (ops : List Op)
    (h : A ≠ B) :
    keyOf A ≠ keyOf B ∧
    getAllOrders (switchUser A (applyOps ops (switchUser B (switchUser A s))))
      = getAllOrders (switchUser A s) := by
  have hkey : keyOf A ≠ keyOf B := fun he => h (keyOf_injective A B he)
  refine ⟨hkey, ?_⟩
  rw [getAllOrders, getAllOrders, switchUser_orders, switchUser_orders]
  have hphone : (switchUser B (switchUser A s)).currentUserPhone = B :=
    switchUser_phone B (switchUser A s)
  rw [applyOps_storageGet_ne ops (switchUser B (switchUser A s)) (keyOf A)
    (by rw [hphone]; exact hkey)]
  rw [switchUser_storage, switchUser_storage]

/-- Witness for C1 at concrete users and a concrete mutation sequence. -/
theorem session_isolation_witness :
    keyOf "111" ≠ keyOf "222" ∧
    getAllOrders (switchUser "111"
        (applyOps [Op.create { id := "b", price := 3, payload := "y" }, Op.markPicked "b"]
          (switchUser "222" (switchUser "111"
            { orders := [], currentUserPhone := "",
              storage := [(keyOf "111",
                StoredVal.good [{ id := "a", status := "pending", price := 7, payload := "x" }])],
              log := [] }))))
      = getAllOrders (switchUser "111"
          { orders := [], currentUserPhone := "",
            storage := [(keyOf "111",
              StoredVal.good [{ id := "a", status := "pending", price := 7, payload := "x" }])],
            log := [] }) :=
  session_isolation "111" "222"
    { orders := [], currentUserPhone := "",
      storage := [(keyOf "111",
        StoredVal.good [{ id := "a", status := "pending", price := 7, payload := "x" }])],
      log := [] }
    [Op.create { id := "b", price := 3, payload := "y" }, Op.markPicked "b"]
    (by decide)

/-!
## List-level lemmas about the id-directed update and removal
-/

theorem find_unique (l : List Order) (id : String) (hn : NodupIds l) (o x : Order)
    (ho : l.find? (fun o2 => o2.id == id) = some o) (hx : x ∈ l) (hxid : x.id = id) :
    x = o := by
  induction l with
  | nil => cases hx
  | cons a rest ih =>
    rw [NodupIds, List.map_cons, List.nodup_cons] at hn
    by_cases ha : (a.id == id) = true
    · rw [List.find?_cons_of_pos rest ha] at ho
      have hao : a = o := Option.some.inj ho
      cases List.mem_cons.mp hx with
      | inl he => exact he.trans hao
      | inr hrest =>
        have hmem : a.id ∈ rest.map (fun o2 => o2.id) := by
          rw [beq_iff_eq.mp ha, ← hxid]
          exact List.mem_map_of_mem (fun o2 => o2.id) hrest
        exact absurd hmem hn.1
    · rw [List.find?_cons_of_neg rest ha] at ho
      cases List.mem_cons.mp hx with
      | inl he => exact absurd (beq_iff_eq.mpr (he ▸ hxid)) ha
      | inr hrest => exact ih hn.2 ho hrest

theorem find_updateFirst (l : List Order) (id : String) (f : Order → Order)
    (hf_id : ∀ o : Order, (f o).id = o.id) (o : Order)
    (ho : l.find? (fun o2 => o2.id == id) = some o) :
    (updateFirstWithId id f l).find? (fun o2 => o2.id == id) = some (f o) := by
  induction l with
  | nil => cases ho
  | cons a rest ih =>
    rw [updateFirstWithId]
    by_cases ha : (a.id == id) = true
    · rw [if_pos ha]
      rw [List.find?_cons_of_pos rest ha] at ho
      have hao : a = o := Option.some.inj ho
      rw [← hao]
      exact List.find?_cons_of_pos rest
        (by rw [beq_iff_eq, hf_id a]; exact beq_iff_eq.mp ha)
    · rw [if_neg ha]
      rw [List.find?_cons_of_neg rest ha] at ho
      rw [List.find?_cons_of_neg (updateFirstWithId id f rest) ha]
      exact ih ho

theorem updateFirst_frame (l : List Order) (id : String) (f : Order → Order)
    (hf_id : ∀ o : Order, (f o).id = o.id) (x : Order)
    (hx : x ∈ updateFirstWithId id f l) (hxid : x.id ≠ id) : x ∈ l := by
  induction l with
  | nil => cases hx
  | cons a rest ih =>
    rw [updateFirstWithId] at hx
    by_cases ha : (a.id == id) = true
    · rw [if_pos ha] at hx
      cases List.mem_cons.mp hx with
      | inl he => exact absurd (he ▸ hf_id a ▸ beq_iff_eq.mp ha : x.id = id) hxid
      | inr hrest => exact List.mem_cons_of_mem a hrest
    · rw [if_neg ha] at hx
      cases List.mem_cons.mp hx with
      | inl he => exact he ▸ List.mem_cons_self a rest
      | inr hrest => exact List.mem_cons_of_mem a (ih hrest)

theorem updateFirst_map_id (l : List Order) (id : String) (f : Order → Order)
    (hf_id : ∀ o : Order, (f o).id = o.id) :
    (updateFirstWithId id f l).map (fun o => o.id) = l.map (fun o => o.id) := by
  induction l with
  | nil => rfl
  | cons a rest ih =>
    rw [updateFirstWithId]
    by_cases ha : (a.id == id) = true
    · rw [if_pos ha, List.map_cons, List.map_cons, hf_id]
    · rw [if_neg ha, List.map_cons, List.map_cons, ih]

theorem removeFirst_sublist (l : List Order) (id : String) :
    List.Sublist (removeFirstWithId id l) l := by
  induction l with
  | nil => exact List.Sublist.refl []
  | cons a rest ih =>
    rw [removeFirstWithId]
    by_cases ha : (a.id == id) = true
    · rw [if_pos ha]
      exact List.sublist_cons_self a rest
    · rw [if_neg ha]
      exact List.Sublist.cons₂ a ih

theorem removeFirst_no_id (l : List Order) (id : String) (hn : NodupIds l) (x : Order)
    (hx : x ∈ removeFirstWithId id l) : x.id ≠ id := by
  induction l with
  | nil => cases hx
  | cons a rest ih =>
    rw [NodupIds, List.map_cons, List.nodup_cons] at hn
    rw [removeFirstWithId] at hx
    by_cases ha : (a.id == id) = true
    · rw [if_pos ha] at hx
      intro he
      exact hn.1 (beq_iff_eq.mp ha ▸ he ▸ List.mem_map_of_mem (fun o2 => o2.id) hx)
    · rw [if_neg ha] at hx
      cases List.mem_cons.mp hx with
      | inl he => exact he ▸ fun hb => ha (beq_iff_eq.mpr hb)
      | inr hrest => exact ih hn.2 hrest

/-- Shared shape of `markOrderAsPicked` and `markOrderAsExpired`: the result
of the lookup/guard/transition/persist sequence, for any id-preserving
transition `f` sending pending orders to the terminal status `target`. -/
theorem mark_helper (f : Order → Order) (target : OrderStatus)
    (hf_id : ∀ o : Order, (f o).id = o.id)
    (hf : ∀ o : Order, o.status = OrderStatus.pending → f o = { o with status := target })
    (s : ServiceState) (orderId : String) (hn : NodupIds s.orders)
    (r : Bool × ServiceState)
    (hr : r = match getOrderById orderId s with
      | some o =>
          if o.isPending then
            (true, saveOrders { s with orders := updateFirstWithId orderId f s.orders })
          else (false, s)
      | none => (false, s)) :
    (r.1 = true ↔ ∃ o ∈ s.orders, o.id = orderId ∧ o.status = OrderStatus.pending) ∧
    (r.1 = false → r.2 = s) ∧
    (r.1 = true →
      r.2 = saveOrders { s with orders := updateFirstWithId orderId f s.orders } ∧
      (∃ o, getOrderById orderId s = some o ∧
        getOrderById orderId r.2 = some { o with status := target }) ∧
      ∀ x ∈ r.2.orders, x.id ≠ orderId → x ∈ s.orders) := by
  cases hfind : getOrderById orderId s with
  | none =>
    have hr2 : r = (false, s) := by rw [hr, hfind]
    subst hr2
    refine ⟨⟨fun hb => absurd hb Bool.false_ne_true, ?_⟩, fun _ => rfl,
      fun hb => absurd hb Bool.false_ne_true⟩
    rintro ⟨x, hx, hxid, -⟩
    have hnone : s.orders.find? (fun o2 => o2.id == orderId) = none := hfind
    exact absurd (beq_iff_eq.mpr hxid) (List.find?_eq_none.mp hnone x hx)
  | some o =>
    have ho : s.orders.find? (fun o2 => o2.id == orderId) = some o := hfind
    by_cases hp : o.isPending = true
    · have hstatus : o.status = OrderStatus.pending := by
        rw [Order.isPending, beq_iff_eq] at hp
        exact hp
      have hr2 : r = (true, saveOrders { s with orders := updateFirstWithId orderId f s.orders }) := by
        rw [hr, hfind]
        exact if_pos hp
      subst hr2
      refine ⟨⟨fun _ => ?_, fun _ => rfl⟩, fun hb => Bool.noConfusion hb, fun _ => ?_⟩
      · have hpo := List.find?_some ho
        exact ⟨o, List.mem_of_find?_eq_some ho, beq_iff_eq.mp hpo, hstatus⟩
      · refine ⟨rfl, ⟨o, rfl, ?_⟩, ?_⟩
        · show getOrderById orderId
            (saveOrders { s with orders := updateFirstWithId orderId f s.orders })
              = some { o with status := target }
          have hfu := find_updateFirst s.orders orderId f hf_id o ho
          rw [hf o hstatus] at hfu
          rw [getOrderById, saveOrders_orders]
          exact hfu
        · intro x hx hxid
          have hx2 : x ∈
              (saveOrders { s with orders := updateFirstWithId orderId f s.orders }).orders := hx
          rw [saveOrders_orders] at hx2
          exact updateFirst_frame s.orders orderId f hf_id x hx2 hxid
    · have hr2 : r = (false, s) := by
        rw [hr, hfind]
        exact if_neg hp
      subst hr2
      refine ⟨⟨fun hb => absurd hb Bool.false_ne_true, ?_⟩, fun _ => rfl,
        fun hb => absurd hb Bool.false_ne_true⟩
      rintro ⟨x, hx, hxid, hxst⟩
      have hxo : x = o := find_unique s.orders orderId hn o x ho hx hxid
      rw [Order.isPending, beq_iff_eq] at hp
      exact absurd (hxo ▸ hxst) hp

/-- C2: `markOrderAsPicked(id)` (and symmetrically `markOrderAsExpired(id)`)
returns true, transitions the order with that id to the terminal status, and
persists (runs `saveOrders` on the updated collection), exactly when an order
with that id exists in a pending state; otherwise it returns false and the
state — in particular every order's status — is unchanged. All functions in
this development are total, so no exception is possible. Stated over states
whose collection has no duplicate ids, the documented invariant. -/
theorem markPicked_markExpired_spec (s : ServiceState) (orderId : String)
    (hn : NodupIds s.orders) :
    (((markOrderAsPicked orderId s).1 = true
        ↔ ∃ o ∈ s.orders, o.id = orderId ∧ o.status = OrderStatus.pending) ∧
      ((markOrderAsPicked orderId s).1 = false → (markOrderAsPicked orderId s).2 = s) ∧
      ((markOrderAsPicked orderId s).1 = true →
        (markOrderAsPicked orderId s).2
          = saveOrders
              { s with orders := updateFirstWithId orderId Order.markAsPicked s.orders } ∧
        (∃ o, getOrderById orderId s = some o ∧
          getOrderById orderId (markOrderAsPicked orderId s).2
            = some { o with status := OrderStatus.picked }) ∧
        ∀ x ∈ (markOrderAsPicked orderId s).2.orders, x.id ≠ orderId → x ∈ s.orders)) ∧
    (((markOrderAsExpired orderId s).1 = true
        ↔ ∃ o ∈ s.orders, o.id = orderId ∧ o.status = OrderStatus.pending) ∧
      ((markOrderAsExpired orderId s).1 = false → (markOrderAsExpired orderId s).2 = s) ∧
      ((markOrderAsExpired orderId s).1 = true →
        (markOrderAsExpired orderId s).2
          = saveOrders
              { s with orders := updateFirstWithId orderId Order.markAsExpired s.orders } ∧
        (∃ o, getOrderById orderId s = some o ∧
          getOrderById orderId (markOrderAsExpired orderId s).2
            = some { o with status := OrderStatus.expired }) ∧
        ∀ x ∈ (markOrderAsExpired orderId s).2.orders, x.id ≠ orderId → x ∈ s.orders)) := by
  constructor
  · exact mark_helper Order.markAsPicked OrderStatus.picked
      (fun o => by rw [Order.markAsPicked]; split <;> rfl)
      (fun o hst => by rw [Order.markAsPicked, if_pos hst])
      s orderId hn (markOrderAsPicked orderId s) rfl
  · exact mark_helper Order.markAsExpired OrderStatus.expired
      (fun o => by rw [Order.markAsExpired]; split <;> rfl)
      (fun o hst => by rw [Order.markAsExpired, if_pos hst])
      s orderId hn (markOrderAsExpired orderId s) rfl

/-- Witness for C2 at a concrete one-pending-order state. -/
theorem markPicked_markExpired_spec_witness :
    NodupIds exState.orders ∧
    ((markOrderAsPicked "a" exState).1 = true
      ↔ ∃ o ∈ exState.orders, o.id = "a" ∧ o.status = OrderStatus.pending) ∧
    ((markOrderAsExpired "a" exState).1 = true
      ↔ ∃ o ∈ exState.orders, o.id = "a" ∧ o.status = OrderStatus.pending) :=
  ⟨by decide, (markPicked_markExpired_spec exState "a" (by decide)).1.1,
    (markPicked_markExpired_spec exState "a" (by decide)).2.1⟩

/-- C6: `deleteOrder(id)` returns true exactly when some order carries the
id; on success the first such order is removed and the collection persisted
(`saveOrders` runs on the shortened collection) and a subsequent
`getOrderById(id)` returns the not-found marker `none`; on an absent id it
returns false and the state is entirely unchanged. Stated over states whose
collection has no duplicate ids, the documented invariant. -/
theorem deleteOrder_spec (s : ServiceState) (orderId : String)
    (hn : NodupIds s.orders) :
    ((deleteOrder orderId s).1 = true ↔ ∃ o ∈ s.orders, o.id = orderId) ∧
    ((deleteOrder orderId s).1 = true →
      (deleteOrder orderId s).2
        = saveOrders { s with orders := removeFirstWithId orderId s.orders } ∧
      getOrderById orderId (deleteOrder orderId s).2 = none) ∧
    ((deleteOrder orderId s).1 = false → (deleteOrder orderId s).2 = s) := by
  by_cases hex : (s.orders.any (fun o => o.id == orderId)) = true
  · have hr2 : deleteOrder orderId s
        = (true, saveOrders { s with orders := removeFirstWithId orderId s.orders }) := by
      rw [deleteOrder, if_pos hex]
    rw [hr2]
    refine ⟨⟨fun _ => ?_, fun _ => rfl⟩, fun _ => ⟨rfl, ?_⟩, fun hb => Bool.noConfusion hb⟩
    · obtain ⟨x, hx, hxp⟩ := List.any_eq_true.mp hex
      exact ⟨x, hx, beq_iff_eq.mp hxp⟩
    · show getOrderById orderId
        (saveOrders { s with orders := removeFirstWithId orderId s.orders }) = none
      rw [getOrderById, saveOrders_orders]
      apply List.find?_eq_none.mpr
      intro x hx hbeq
      exact removeFirst_no_id s.orders orderId hn x hx (beq_iff_eq.mp hbeq)
  · have hr2 : deleteOrder orderId s = (false, s) := by
      rw [deleteOrder, if_neg hex]
    rw [hr2]
    refine ⟨⟨fun hb => absurd hb Bool.false_ne_true, ?_⟩,
      fun hb => Bool.noConfusion hb, fun _ => rfl⟩
    rintro ⟨x, hx, hxid⟩
    have hany : (s.orders.any (fun o => o.id == orderId)) = true :=
      List.any_eq_true.mpr ⟨x, hx, beq_iff_eq.mpr hxid⟩
    exact absurd hany hex

/-- Witness for C6 at a concrete one-order state. -/
theorem deleteOrder_spec_witness :
    NodupIds exState.orders ∧
    ((deleteOrder "a" exState).1 = true ↔ ∃ o ∈ exState.orders, o.id = "a") ∧
    getOrderById "a" (deleteOrder "a" exState).2 = none :=
  ⟨by decide, (deleteOrder_spec exState "a" (by decide)).1,
    ((deleteOrder_spec exState "a" (by decide)).2.1 (by decide)).2⟩

/-!
## The no-duplicate-id invariant (C9)
-/

theorem nodup_updateFirst (l : List Order) (id : String) (f : Order → Order)
    (hf_id : ∀ o : Order, (f o).id = o.id) (hn : NodupIds l) :
    NodupIds (updateFirstWithId id f l) := by
  rw [NodupIds, updateFirst_map_id l id f hf_id]
  exact hn

theorem nodup_removeFirst (l : List Order) (id : String) (hn : NodupIds l) :
    NodupIds (removeFirstWithId id l) := by
  rw [NodupIds]
  exact hn.sublist ((removeFirst_sublist l id).map (fun o => o.id))

theorem markAsPicked_id (o : Order) : (Order.markAsPicked o).id = o.id := by
  rw [Order.markAsPicked]
  split <;> rfl

theorem markAsExpired_id (o : Order) : (Order.markAsExpired o).id = o.id := by
  rw [Order.markAsExpired]
  split <;> rfl

theorem nodup_mark_branch (s : ServiceState) (orderId : String) (f : Order → Order)
    (hf_id : ∀ o : Order, (f o).id = o.id) (hn : NodupIds s.orders)
    (r : Bool × ServiceState)
    (hr : r = match getOrderById orderId s with
      | some o =>
          if o.isPending then
            (true, saveOrders { s with orders := updateFirstWithId orderId f s.orders })
          else (false, s)
      | none => (false, s)) :
    NodupIds r.2.orders := by
  cases hfind : getOrderById orderId s with
  | none =>
    have hr2 : r = (false, s) := by rw [hr, hfind]
    rw [hr2]
    exact hn
  | some o =>
    by_cases hp : o.isPending = true
    · have hr2 : r = (true, saveOrders { s with orders := updateFirstWithId orderId f s.orders }) := by
        rw [hr, hfind]
        exact if_pos hp
      rw [hr2]
      show NodupIds (saveOrders { s with orders := updateFirstWithId orderId f s.orders }).orders
      rw [saveOrders_orders]
      exact nodup_updateFirst s.orders orderId f hf_id hn
    · have hr2 : r = (false, s) := by
        rw [hr, hfind]
        exact if_neg hp
      rw [hr2]
      exact hn

/-- C9 counterexample: `createOrder` appends unconditionally, so creating
twice with the same caller-supplied id — from a reachable state whose
collection satisfies the no-duplicate-id invariant — produces a collection
with a duplicate id. This refutes the claim that every operation preserves
the invariant. -/
theorem createOrder_duplicate_id :
    NodupIds ((createOrder { id := "a", price := 1, payload := "" }
        (switchUser "u"
          { orders := [], currentUserPhone := "", storage := [], log := [] })).2.orders) ∧
    ¬ NodupIds ((createOrder { id := "a", price := 1, payload := "" }
        ((createOrder { id := "a", price := 1, payload := "" }
          (switchUser "u"
            { orders := [], currentUserPhone := "", storage := [],
              log := [] })).2)).2.orders) := by
  decide

/-- C9 amended: insertion order is preserved — `createOrder` appends at the
end — and the no-duplicate-id invariant is preserved by `createOrder`
exactly when the supplied id is not already present, and unconditionally by
the status transitions, by deletion, and by the clearing operations. -/
theorem orders_insertion_nodup (s : ServiceState) (d : OrderData) (orderId : String)
    (hn : NodupIds s.orders) :
    (createOrder d s).2.orders = s.orders ++ [Order.construct d] ∧
    (d.id ∉ s.orders.map (fun o => o.id) → NodupIds (createOrder d s).2.orders) ∧
    NodupIds (markOrderAsPicked orderId s).2.orders ∧
    NodupIds (markOrderAsExpired orderId s).2.orders ∧
    NodupIds (deleteOrder orderId s).2.orders ∧
    NodupIds (clearAllOrders s).orders ∧
    NodupIds (clearUserSession s).orders := by
  have h1 : (createOrder d s).2.orders = s.orders ++ [Order.construct d] := by
    show (saveOrders { s with orders := s.orders ++ [Order.construct d] }).orders = _
    rw [saveOrders_orders]
  refine ⟨h1, ?_, ?_, ?_, ?_, ?_, ?_⟩
  · intro hni
    rw [h1, NodupIds, List.map_append]
    rw [List.nodup_append]
    refine ⟨hn, List.nodup_singleton _, ?_⟩
    intro a ha hb
    rw [List.map_cons, List.map_nil, List.mem_singleton] at hb
    have hb2 : a = d.id := hb
    exact hni (hb2 ▸ ha)
  · exact nodup_mark_branch s orderId Order.markAsPicked markAsPicked_id hn
      (markOrderAsPicked orderId s) rfl
  · exact nodup_mark_branch s orderId Order.markAsExpired markAsExpired_id hn
      (markOrderAsExpired orderId s) rfl
  · by_cases hex : (s.orders.any (fun o => o.id == orderId)) = true
    · have hr2 : deleteOrder orderId s
          = (true, saveOrders { s with orders := removeFirstWithId orderId s.orders }) := by
        rw [deleteOrder, if_pos hex]
      rw [hr2]
      show NodupIds (saveOrders { s with orders := removeFirstWithId orderId s.orders }).orders
      rw [saveOrders_orders]
      exact nodup_removeFirst s.orders orderId hn
    · have hr2 : deleteOrder orderId s = (false, s) := by
        rw [deleteOrder, if_neg hex]
      rw [hr2]
      exact hn
  · rw [clearAllOrders]
    split <;> exact List.nodup_nil
  · exact List.nodup_nil

/-- Witness for the amended C9 at a concrete state and fresh id. -/
theorem orders_insertion_nodup_witness :
    NodupIds exState.orders ∧
    ("b" ∉ exState.orders.map (fun o => o.id)) ∧
    (createOrder { id := "b", price := 2, payload := "" } exState).2.orders
      = exState.orders ++ [Order.construct { id := "b", price := 2, payload := "" }] ∧
    NodupIds (createOrder { id := "b", price := 2, payload := "" } exState).2.orders :=
  ⟨by decide, by decide,
    (orders_insertion_nodup exState { id := "b", price := 2, payload := "" } "a" (by decide)).1,
    (orders_insertion_nodup exState { id := "b", price := 2, payload := "" } "a"
      (by decide)).2.1 (by decide)⟩

/-!
## Degrade-to-empty on missing or malformed data (C4)
-/

/-- C4 counterexample: binding a user whose key is absent from storage
degrades to the empty collection, but nothing is logged — the missing-data
branch of `loadOrders` is the plain else branch, with no `console.error` —
refuting the part of the claim that says the condition is logged. -/
theorem load_missing_data_not_logged :
    (switchUser "u"
        { orders := [exPending], currentUserPhone := "", storage := [], log := [] }).orders
      = [] ∧
    (switchUser "u"
        { orders := [exPending], currentUserPhone := "", storage := [], log := [] }).log
      = [] := by
  decide

/-- C4 amended: when `switchUser` (the spec's `bindUser`) finds missing or
malformed persisted data for the user, the in-memory collection becomes
empty and no error is propagated (the functions are total); the malformed
case additionally logs the `console.error` message, while the missing case
is silent and leaves the log unchanged. -/
theorem load_degrades_to_empty (phone : String) (s : ServiceState)
    (h : storageGet s.storage (keyOf phone) = none ∨
      storageGet s.storage (keyOf phone) = some StoredVal.malformed) :
    (switchUser phone s).orders = [] ∧
    (phone ≠ "" → storageGet s.storage (keyOf phone) = some StoredVal.malformed →
      (switchUser phone s).log = s.log ++ ["Error loading orders"]) ∧
    (storageGet s.storage (keyOf phone) = none → (switchUser phone s).log = s.log) := by
  have hkey : getStorageKey { s with currentUserPhone := phone } = keyOf phone := rfl
  by_cases hp : phone = ""
  · refine ⟨?_, fun hne _ => absurd hp hne, fun _ => ?_⟩
    · rw [switchUser, loadOrders, if_pos hp]
    · rw [switchUser, loadOrders, if_pos hp]
  · cases h with
    | inl hnone =>
      have hload : switchUser phone s
          = { orders := [], currentUserPhone := phone, storage := s.storage,
              log := s.log } := by
        rw [switchUser, loadOrders, if_neg hp, hkey]
        rw [show ({ s with currentUserPhone := phone } : ServiceState).storage
          = s.storage from rfl, hnone]
      rw [hload]
      exact ⟨rfl, fun _ hm => absurd (hnone.symm.trans hm) (by simp), fun _ => rfl⟩
    | inr hmal =>
      have hload : switchUser phone s
          = { orders := [], currentUserPhone := phone, storage := s.storage,
              log := s.log ++ ["Error loading orders"] } := by
        rw [switchUser, loadOrders, if_neg hp, hkey]
        rw [show ({ s with currentUserPhone := phone } : ServiceState).storage
          = s.storage from rfl, hmal]
      rw [hload]
      exact ⟨rfl, fun _ _ => rfl, fun hn => absurd (hn.symm.trans hmal) (by simp)⟩

/-- Witness for the amended C4 at a concrete state with malformed data. -/
theorem load_degrades_to_empty_witness :
    (storageGet [(keyOf "u", StoredVal.malformed)] (keyOf "u")
        = some StoredVal.malformed) ∧
    (switchUser "u"
        { orders := [exPending], currentUserPhone := "",
          storage := [(keyOf "u", StoredVal.malformed)], log := [] }).orders = [] ∧
    (switchUser "u"
        { orders := [exPending], currentUserPhone := "",
          storage := [(keyOf "u", StoredVal.malformed)], log := [] }).log
      = [] ++ ["Error loading orders"] :=
  ⟨by decide,
    (load_degrades_to_empty "u"
      { orders := [exPending], currentUserPhone := "",
        storage := [(keyOf "u", StoredVal.malformed)], log := [] }
      (Or.inr (by decide))).1,
    (load_degrades_to_empty "u"
      { orders := [exPending], currentUserPhone := "",
        storage := [(keyOf "u", StoredVal.malformed)], log := [] }
      (Or.inr (by decide))).2.1 (by decide) (by decide)⟩

/-!
## Shallow copy in `getAllOrders` (C3)
-/

theorem getD_set_ne_list (m : List (List Nat)) (i j : Nat) (v : List Nat) (hij : i ≠ j) :
    (m.set i v).getD j [] = m.getD j [] := by
  simp [List.getD, List.getElem?_set_ne hij]

/-- C3 counterexample: `getAllOrders` returns `[...this.orders]`, a fresh
array holding the same `Order` object references; at a concrete
one-pending-order store, the returned array contains the reference to the
store's own order object, and a caller mutating that object in place (here:
calling its `markAsPicked`) changes the store's observable collection —
refuting the claim that mutation of the returned Order records leaves the
store's collection unchanged. -/
theorem listAll_record_alias_counterexample :
    0 ∈ readArray
        (getAllOrdersJS { orderHeap := [exPending], arrayHeap := [[0]], ordersRef := 0 }).2
        (getAllOrdersJS { orderHeap := [exPending], arrayHeap := [[0]], ordersRef := 0 }).1 ∧
    storeView (writeOrder
        (getAllOrdersJS { orderHeap := [exPending], arrayHeap := [[0]], ordersRef := 0 }).2
        0 (Order.markAsPicked exPending))
      ≠ storeView { orderHeap := [exPending], arrayHeap := [[0]], ordersRef := 0 } := by
  decide

/-- C3 amended: `getAllOrders` returns a fresh array — a shallow copy — so
the store's observable collection is unchanged by the call, and any mutation
of the returned sequence itself (overwriting the fresh array cell with
arbitrary contents) leaves the store's collection unchanged; only the shared
`Order` records are mutable through the result (see the counterexample). -/
theorem listAll_shallow_copy (s : JSState) (l : List Nat)
    (h : s.ordersRef < s.arrayHeap.length) :
    (getAllOrdersJS s).1 ≠ s.ordersRef ∧
    storeView (getAllOrdersJS s).2 = storeView s ∧
    storeView (writeArray (getAllOrdersJS s).2 (getAllOrdersJS s).1 l) = storeView s := by
  have hord : readOrder (getAllOrdersJS s).2 = readOrder s := funext (fun a => rfl)
  have harr : readArray (getAllOrdersJS s).2 (getAllOrdersJS s).2.ordersRef
      = readArray s s.ordersRef := by
    show (s.arrayHeap ++ [readArray s s.ordersRef]).getD s.ordersRef []
      = s.arrayHeap.getD s.ordersRef []
    exact List.getD_append s.arrayHeap [readArray s s.ordersRef] [] s.ordersRef h
  refine ⟨?_, ?_, ?_⟩
  · intro he
    have he2 : s.arrayHeap.length = s.ordersRef := he
    rw [← he2] at h
    exact Nat.lt_irrefl _ h
  · rw [storeView, hord, harr, storeView]
  · have hordw : readOrder (writeArray (getAllOrdersJS s).2 (getAllOrdersJS s).1 l)
        = readOrder s := funext (fun a => rfl)
    have harrw : readArray (writeArray (getAllOrdersJS s).2 (getAllOrdersJS s).1 l)
        (writeArray (getAllOrdersJS s).2 (getAllOrdersJS s).1 l).ordersRef
        = readArray s s.ordersRef := by
      show ((s.arrayHeap ++ [readArray s s.ordersRef]).set s.arrayHeap.length l).getD
          s.ordersRef []
        = s.arrayHeap.getD s.ordersRef []
      rw [getD_set_ne_list _ _ _ _ (fun he => Nat.lt_irrefl _ (he ▸ h))]
      exact List.getD_append s.arrayHeap [readArray s s.ordersRef] [] s.ordersRef h
    rw [storeView, hordw, harrw, storeView]

/-- Witness for the amended C3 at a concrete one-order store. -/
theorem listAll_shallow_copy_witness :
    (0 : Nat) < (1 : Nat) ∧
    (getAllOrdersJS { orderHeap := [exPending], arrayHeap := [[0]], ordersRef := 0 }).1 ≠ 0 ∧
    storeView (writeArray
        (getAllOrdersJS { orderHeap := [exPending], arrayHeap := [[0]], ordersRef := 0 }).2
        (getAllOrdersJS { orderHeap := [exPending], arrayHeap := [[0]], ordersRef := 0 }).1 [])
      = storeView { orderHeap := [exPending], arrayHeap := [[0]], ordersRef := 0 } :=
  ⟨by decide,
    (listAll_shallow_copy { orderHeap := [exPending], arrayHeap := [[0]], ordersRef := 0 } []
      (by decide)).1,
    (listAll_shallow_copy { orderHeap := [exPending], arrayHeap := [[0]], ordersRef := 0 } []
      (by decide)).2.2⟩

end GoodBite
